import Mathlib

/-!
Shallow embedding of the TBM terminal hex viewer (`src/main.rs`) and proofs
about its byte-to-row formatting loop (`App::open_file`), its row rotation
operations (`App::move_up`, `App::move_down`) and its load path
(`App::parse_blueprint`).

Conventions of the embedding:
* a Rust `u8` is a `Nat` (all byte values produced by `std::fs::read` are
  `< 256`; where two's-complement width matters we take `% 16` explicitly);
* `Vec<u8>` is `List Nat`, `Spans<'a>` (built with `Spans::from(String)`) is
  its underlying `String`;
* a Rust panic (`Vec::drain` out of range, `rotate_right`/`rotate_left` with
  an amount larger than the length, `.unwrap()` on `Err`/`None`) is `none` in
  an `Option`-valued result.
-/

namespace TBM

/-- One uppercase hexadecimal digit, as produced by Rust's `{:02X}` format
(digits `0`-`9` then `A`-`F`). Meaningful for `n < 16`. -/
def hexDigit (n : Nat) : Char :=
  if n < 10 then Char.ofNat (48 + n) else Char.ofNat (55 + n)

/-- Embeds `format!("{:02X} ", bt)` for a byte `bt`: two uppercase hex digits
followed by a space. The high digit is `bt / 16 % 16`, which for `bt < 256`
(every `u8`) is exactly `bt / 16`. -/
def hexByte (bt : Nat) : String :=
  String.mk [hexDigit (bt / 16 % 16), hexDigit (bt % 16), ' ']

/-- Embeds the per-byte ascii rendering in `App::open_file`:
`match bt { 0x20..=0x7E => bt as char, _ => '.' }`. -/
def asciiByte (bt : Nat) : Char :=
  if 0x20 ≤ bt ∧ bt ≤ 0x7E then Char.ofNat bt else '.'

/-- The hex text accumulated by the `for bt in vc.drain(..8)` loop body over a
group `g`: `hex_str.push_str(format!("{:02X} ", bt))` for each byte. -/
def hexOfBytes (g : List Nat) : String :=
  String.join (g.map hexByte)

/-- The ascii text accumulated over a group `g`:
`ascii_str.push(...)` for each byte. -/
def asciiOfBytes (g : List Nat) : String :=
  String.mk (g.map asciiByte)

/-- Test for an uppercase hexadecimal digit character (the alphabet of
Rust's `{:X}` format). -/
def isUpperHexDigit (c : Char) : Bool :=
  ("0123456789ABCDEF".data).contains c

/-- Numeric value of an uppercase hexadecimal digit character. -/
def hexCharVal (c : Char) : Nat :=
  if c.toNat ≤ 57 then c.toNat - 48 else c.toNat - 55

/-- Embeds the byte-to-row loop of `App::open_file` (`while !vc.is_empty()`).
Each iteration drains the first 8 bytes of `vc` into the row
(`vc.drain(..8)` panics — here `none` — when `vc` holds fewer than 8 bytes),
appends the alignment spacer (`"   "` to the hex text, `' '` to the ascii
text), and then either finalizes the row and breaks (when fewer than 8 bytes
remain) or drains a second 8-byte group into the same row and continues.
Returns the `(file_as_hex, file_as_ascii)` rows pushed by the loop, or `none`
if some iteration panics. -/
def formatLoop (vc : List Nat) : Option (List String × List String) :=
  if vc = [] then some ([], [])
  else if vc.length < 8 then none
  else
    let g1 := vc.take 8
    let vc1 := vc.drop 8
    let hex1 := hexOfBytes g1 ++ "   "
    let asc1 := asciiOfBytes g1 ++ " "
    if vc1.length < 8 then some ([hex1], [asc1])
    else
      match formatLoop (vc1.drop 8) with
      | none => none
      | some (hs, has) =>
          some ((hex1 ++ hexOfBytes (vc1.take 8)) :: hs,
                (asc1 ++ asciiOfBytes (vc1.take 8)) :: has)
termination_by vc.length
decreasing_by
  simp only [List.length_drop]
  omega

/-- The byte spans (contiguous chunks of the buffer) consumed for each row by
the loop of `App::open_file`, in row order: a full row consumes 16 bytes, the
final row consumes 8 (any 1-7 bytes after it are dropped by the `break`), and
a tail of 1-7 bytes at the start of an iteration is the panicking case. -/
def rowChunks (vc : List Nat) : Option (List (List Nat)) :=
  if vc = [] then some []
  else if vc.length < 8 then none
  else if vc.length < 16 then some [vc.take 8]
  else
    match rowChunks (vc.drop 16) with
    | none => none
    | some cs => some (vc.take 16 :: cs)
termination_by vc.length
decreasing_by
  simp only [List.length_drop]
  omega

/-- The hex text of the row derived from chunk `c` (8 or 16 bytes): first
group, spacer `"   "`, second group (empty for a final short row). -/
def renderHexRow (c : List Nat) : String :=
  if c.length ≤ 8 then hexOfBytes c ++ "   "
  else hexOfBytes (c.take 8) ++ "   " ++ hexOfBytes (c.drop 8)

/-- The ascii text of the row derived from chunk `c`: first group, spacer
`' '`, second group (empty for a final short row). -/
def renderAsciiRow (c : List Nat) : String :=
  if c.length ≤ 8 then asciiOfBytes c ++ " "
  else asciiOfBytes (c.take 8) ++ " " ++ asciiOfBytes (c.drop 8)

/-- Embeds `struct App`. `file_blueprint: Option<ProgramBlueprint>` is
abstracted to `Option Unit` (the blueprint's content is external to the
core). `Spans` rows are their underlying strings. -/
@[ext]
structure App where
  file_as_bytes : List Nat
  file_blueprint : Option Unit
  file_as_hex : List String
  file_as_ascii : List String
deriving DecidableEq

/-- Embeds `App::new()`. -/
def App.new : App :=
  { file_as_bytes := [], file_blueprint := none, file_as_hex := [], file_as_ascii := [] }

/-- Embeds `slice::rotate_right(n)`: the last `n` elements move to the front.
Panics (`none`) when `n` exceeds the slice length. -/
def rotate_right (l : List String) (n : Nat) : Option (List String) :=
  if l.length < n then none
  else some (l.drop (l.length - n) ++ l.take (l.length - n))

/-- Embeds `slice::rotate_left(n)`: the first `n` elements move to the back.
Panics (`none`) when `n` exceeds the slice length. -/
def rotate_left (l : List String) (n : Nat) : Option (List String) :=
  if l.length < n then none
  else some (l.drop n ++ l.take n)

/-- Embeds `App::move_up`: `number.unwrap_or(1)`, then `rotate_right` on
`file_as_ascii` and on `file_as_hex`. `none` if a rotation panics. -/
def move_up (app : App) (number : Option Nat) : Option App :=
  let n := number.getD 1
  match rotate_right app.file_as_ascii n with
  | none => none
  | some asc =>
      match rotate_right app.file_as_hex n with
      | none => none
      | some hex => some { app with file_as_ascii := asc, file_as_hex := hex }

/-- Embeds `App::move_down`: `number.unwrap_or(1)`, then `rotate_left` on
`file_as_ascii` and on `file_as_hex`. `none` if a rotation panics. -/
def move_down (app : App) (number : Option Nat) : Option App :=
  let n := number.getD 1
  match rotate_left app.file_as_ascii n with
  | none => none
  | some asc =>
      match rotate_left app.file_as_hex n with
      | none => none
      | some hex => some { app with file_as_ascii := asc, file_as_hex := hex }

/-- Embeds `App::parse_blueprint`. `readResult` models
`std::fs::read(file_name)` (`none` when the path cannot be read);
`blueprintNew` models `ProgramBlueprint::new` on the bytes (`none` on parse
failure). Both calls are `.unwrap()`ed in the source, so either failure is a
panic (`none`). -/
def parse_blueprint (app : App) (readResult : Option (List Nat))
    (blueprintNew : List Nat → Option Unit) : Option App :=
  match readResult with
  | none => none
  | some program_bytes =>
      match blueprintNew program_bytes with
      | none => none
      | some bp => some { app with file_blueprint := some bp }

/-- Embeds `App::open_file`: first `parse_blueprint` (which panics if the
file is unreadable or not a valid blueprint), then `if let Ok(v) =
std::fs::read(..)` — a failed read at this point is silently skipped — and on
success the byte-to-row loop, whose rows are pushed onto the app's
`file_as_hex` / `file_as_ascii`. -/
def open_file (app : App) (readResult : Option (List Nat))
    (blueprintNew : List Nat → Option Unit) : Option App :=
  match parse_blueprint app readResult blueprintNew with
  | none => none
  | some app1 =>
      match readResult with
      | none => some app1
      | some v =>
          match formatLoop v with
          | none => none
          | some (hs, has) =>
              some { app1 with
                      file_as_bytes := v,
                      file_as_hex := app1.file_as_hex ++ hs,
                      file_as_ascii := app1.file_as_ascii ++ has }

/-- A navigation event: `KeyCode::Up` invokes `move_up(None)`, `KeyCode::Down`
invokes `move_down(None)` (see `run_app`); the amounts are kept general. -/
inductive ShiftOp where
  | up (number : Option Nat)
  | down (number : Option Nat)

/-- Apply one navigation event to the app. -/
def applyShift (app : App) : ShiftOp → Option App
  | ShiftOp.up n => move_up app n
  | ShiftOp.down n => move_down app n

/-- Apply a sequence of navigation events; a panic (`none`) aborts. -/
def applyShifts (app : App) : List ShiftOp → Option App
  | [] => some app
  | op :: ops =>
      match applyShift app op with
      | none => none
      | some app1 => applyShifts app1 ops

/-- An empty buffer makes the loop of `open_file` exit immediately. -/
theorem formatLoop_nil : formatLoop [] = some ([], []) := by
  rw [formatLoop]
  rfl

theorem rowChunks_nil : rowChunks [] = some [] := by
  rw [rowChunks]
  rfl

/-- A nonempty buffer of fewer than 8 bytes makes `vc.drain(..8)` panic at
once. -/
theorem formatLoop_small (vc : List Nat) (h1 : vc ≠ []) (h2 : vc.length < 8) :
    formatLoop vc = none := by
  rw [formatLoop]
  simp [h1, h2]

theorem rowChunks_small (vc : List Nat) (h1 : vc ≠ []) (h2 : vc.length < 8) :
    rowChunks vc = none := by
  rw [rowChunks]
  simp [h1, h2]

/-- A buffer of 8 to 15 bytes yields a single short row from its first 8
bytes (any 1-7 bytes beyond them are dropped by the `break`). -/
theorem formatLoop_single (vc : List Nat) (h1 : 8 ≤ vc.length) (h2 : vc.length < 16) :
    formatLoop vc = some ([hexOfBytes (vc.take 8) ++ "   "], [asciiOfBytes (vc.take 8) ++ " "]) := by
  rw [formatLoop]
  have h0 : vc ≠ [] := by
    intro h
    subst h
    simp at h1
  simp [h0]
  omega

theorem rowChunks_single (vc : List Nat) (h1 : 8 ≤ vc.length) (h2 : vc.length < 16) :
    rowChunks vc = some [vc.take 8] := by
  rw [rowChunks]
  have h0 : vc ≠ [] := by
    intro h
    subst h
    simp at h1
  simp [h0, h2]
  omega

/-- A buffer of at least 16 bytes yields one full row (two 8-byte groups) and
then continues on the remaining bytes. -/
theorem formatLoop_step (vc : List Nat) (h : 16 ≤ vc.length) :
    formatLoop vc = (formatLoop (vc.drop 16)).map
      (fun p => ((hexOfBytes (vc.take 8) ++ "   " ++ hexOfBytes ((vc.drop 8).take 8)) :: p.1,
                 (asciiOfBytes (vc.take 8) ++ " " ++ asciiOfBytes ((vc.drop 8).take 8)) :: p.2)) := by
  rw [formatLoop]
  have h0 : vc ≠ [] := by
    intro hh
    subst hh
    simp at h
  have h8 : ¬ vc.length < 8 := by omega
  have h16 : ¬ (vc.drop 8).length < 8 := by
    simp only [List.length_drop]
    omega
  have hdd : (vc.drop 8).drop 8 = vc.drop 16 := by
    simp [List.drop_drop]
  simp only [h0, if_false, h8, h16, hdd]
  cases formatLoop (vc.drop 16) with
  | none => rfl
  | some p =>
      cases p with
      | mk hs has => rfl

theorem rowChunks_step (vc : List Nat) (h : 16 ≤ vc.length) :
    rowChunks vc = (rowChunks (vc.drop 16)).map (fun cs => vc.take 16 :: cs) := by
  rw [rowChunks]
  have h0 : vc ≠ [] := by
    intro hh
    subst hh
    simp at h
  have h8 : ¬ vc.length < 8 := by omega
  have h16 : ¬ vc.length < 16 := by omega
  simp only [h0, if_false, h8, h16]
  cases rowChunks (vc.drop 16) with
  | none => rfl
  | some cs => rfl

/-- The rows produced by the loop of `open_file` are exactly the rendered
hex/ascii texts of its per-row byte spans, in lock-step. -/
theorem formatLoop_eq_rowChunks (vc : List Nat) :
    formatLoop vc = (rowChunks vc).map
      (fun cs => (cs.map renderHexRow, cs.map renderAsciiRow)) := by
  by_cases h0 : vc = []
  · subst h0
    rw [formatLoop_nil, rowChunks_nil]
    rfl
  by_cases h8 : vc.length < 8
  · rw [formatLoop_small vc h0 h8, rowChunks_small vc h0 h8]
    rfl
  by_cases h16 : vc.length < 16
  · rw [formatLoop_single vc (by omega) h16, rowChunks_single vc (by omega) h16]
    have hlen : (vc.take 8).length ≤ 8 := by
      simp [List.length_take]
    simp [renderHexRow, renderAsciiRow, hlen]
  · have h : 16 ≤ vc.length := by omega
    rw [formatLoop_step vc h, rowChunks_step vc h, formatLoop_eq_rowChunks (vc.drop 16)]
    have hr : renderHexRow (vc.take 16) =
        hexOfBytes (vc.take 8) ++ "   " ++ hexOfBytes ((vc.drop 8).take 8) := by
      have hl : ¬ (vc.take 16).length ≤ 8 := by
        simp only [List.length_take]
        omega
      have ht : (vc.take 16).take 8 = vc.take 8 := by
        simp [List.take_take]
      have hd : (vc.take 16).drop 8 = (vc.drop 8).take 8 := by
        simp [List.drop_take]
      simp only [renderHexRow]
      rw [if_neg hl, ht, hd]
    have ha : renderAsciiRow (vc.take 16) =
        asciiOfBytes (vc.take 8) ++ " " ++ asciiOfBytes ((vc.drop 8).take 8) := by
      have hl : ¬ (vc.take 16).length ≤ 8 := by
        simp only [List.length_take]
        omega
      have ht : (vc.take 16).take 8 = vc.take 8 := by
        simp [List.take_take]
      have hd : (vc.take 16).drop 8 = (vc.drop 8).take 8 := by
        simp [List.drop_take]
      simp only [renderAsciiRow]
      rw [if_neg hl, ht, hd]
    cases rowChunks (vc.drop 16) with
    | none => rfl
    | some cs => simp [hr, ha]
termination_by vc.length
decreasing_by
  simp only [List.length_drop]
  omega

/-- The loop of `open_file` panics whenever the buffer length is congruent to
1..7 modulo 16: after the full 16-byte rows are consumed, a nonempty tail of
fewer than 8 bytes is left at the start of an iteration and `vc.drain(..8)`
panics. -/
theorem formatLoop_none_of_mod (vc : List Nat) (h1 : 0 < vc.length % 16)
    (h2 : vc.length % 16 < 8) : formatLoop vc = none := by
  by_cases h16 : vc.length < 16
  · have h0 : vc ≠ [] := by
      intro hh
      subst hh
      simp at h1
    have h8 : vc.length < 8 := by omega
    exact formatLoop_small vc h0 h8
  · have h : 16 ≤ vc.length := by omega
    rw [formatLoop_step vc h]
    have ih : formatLoop (vc.drop 16) = none := by
      apply formatLoop_none_of_mod (vc.drop 16)
      · simp only [List.length_drop]
        omega
      · simp only [List.length_drop]
        omega
    rw [ih]
    rfl
termination_by vc.length
decreasing_by
  simp only [List.length_drop]
  omega

/-- The loop of `open_file` succeeds exactly when the buffer length is
congruent to 0 or to 8..15 modulo 16 (chunk-level form). -/
theorem rowChunks_some_of_mod (vc : List Nat)
    (h : vc.length % 16 = 0 ∨ 8 ≤ vc.length % 16) :
    ∃ cs, rowChunks vc = some cs := by
  by_cases h0 : vc = []
  · subst h0
    exact ⟨[], rowChunks_nil⟩
  by_cases h16 : vc.length < 16
  · have hlen : 0 < vc.length := List.length_pos.mpr h0
    have h8 : 8 ≤ vc.length := by
      rcases h with h | h
      · omega
      · omega
    exact ⟨[vc.take 8], rowChunks_single vc h8 h16⟩
  · have hle : 16 ≤ vc.length := by omega
    have ih : ∃ cs, rowChunks (vc.drop 16) = some cs := by
      apply rowChunks_some_of_mod (vc.drop 16)
      simp only [List.length_drop]
      omega
    obtain ⟨cs, hcs⟩ := ih
    refine ⟨vc.take 16 :: cs, ?_⟩
    rw [rowChunks_step vc hle, hcs]
    rfl
termination_by vc.length
decreasing_by
  simp only [List.length_drop]
  omega

/-- The concatenation of the per-row byte spans is an initial segment of the
buffer: the rows cover the buffer's first `cs.flatten.length` bytes in order. -/
theorem rowChunks_join (vc : List Nat) (cs : List (List Nat))
    (h : rowChunks vc = some cs) : cs.flatten = vc.take cs.flatten.length := by
  by_cases h0 : vc = []
  · subst h0
    rw [rowChunks_nil] at h
    cases h
    rfl
  by_cases h8 : vc.length < 8
  · rw [rowChunks_small vc h0 h8] at h
    cases h
  by_cases h16 : vc.length < 16
  · have hle : 8 ≤ vc.length := by omega
    rw [rowChunks_single vc hle h16] at h
    cases h
    have hfl : ([vc.take 8] : List (List Nat)).flatten = vc.take 8 := by simp
    have hl : (vc.take 8).length = 8 := by
      simp only [List.length_take]
      omega
    rw [hfl, hl]
  · have hle : 16 ≤ vc.length := by omega
    rw [rowChunks_step vc hle] at h
    obtain ⟨cs1, hcs1, rfl⟩ := Option.map_eq_some'.mp h
    have ih := rowChunks_join (vc.drop 16) cs1 hcs1
    have hl : (vc.take 16).length = 16 := by
      simp only [List.length_take]
      omega
    simp only [List.flatten_cons, List.length_append, hl]
    rw [List.take_add, ← ih]
termination_by vc.length
decreasing_by
  simp only [List.length_drop]
  omega

/-- Shape of the produced rows: at least one row, every row before the last
spans exactly 16 bytes, and the last row spans 16 bytes when the buffer
length is a multiple of 16 and 8 bytes otherwise. -/
theorem rowChunks_shape (vc : List Nat) (cs : List (List Nat)) (hv : vc ≠ [])
    (h : rowChunks vc = some cs) :
    cs ≠ [] ∧ (∀ c ∈ cs.dropLast, c.length = 16) ∧
      ∃ c, cs.getLast? = some c ∧
        c.length = (if vc.length % 16 = 0 then 16 else 8) := by
  by_cases h8 : vc.length < 8
  · rw [rowChunks_small vc hv h8] at h
    cases h
  by_cases h16 : vc.length < 16
  · have hle : 8 ≤ vc.length := by omega
    rw [rowChunks_single vc hle h16] at h
    cases h
    have hl : (vc.take 8).length = 8 := by
      simp only [List.length_take]
      omega
    have hmod : ¬ vc.length % 16 = 0 := by omega
    refine ⟨by simp, by simp, vc.take 8, rfl, ?_⟩
    rw [if_neg hmod, hl]
  · have hle : 16 ≤ vc.length := by omega
    rw [rowChunks_step vc hle] at h
    obtain ⟨cs1, hcs1, rfl⟩ := Option.map_eq_some'.mp h
    have hl16 : (vc.take 16).length = 16 := by
      simp only [List.length_take]
      omega
    by_cases hnil : vc.drop 16 = []
    · have hlen16 : vc.length = 16 := by
        have := congrArg List.length hnil
        simp only [List.length_drop] at this
        simp only [List.length_nil] at this
        omega
      rw [hnil, rowChunks_nil] at hcs1
      cases hcs1
      have hmod : vc.length % 16 = 0 := by omega
      refine ⟨by simp, by simp, vc.take 16, rfl, ?_⟩
      rw [if_pos hmod, hl16]
    · have ih := rowChunks_shape (vc.drop 16) cs1 hnil hcs1
      obtain ⟨hne, hdrop, c, hlast, hclen⟩ := ih
      have hmod : (vc.drop 16).length % 16 = vc.length % 16 := by
        simp only [List.length_drop]
        omega
      rcases cs1 with _ | ⟨c1, t1⟩
      · exact absurd rfl hne
      refine ⟨by simp, ?_, c, ?_, ?_⟩
      · rw [List.dropLast_cons₂]
        intro x hx
        rcases List.mem_cons.mp hx with hx | hx
        · rw [hx, hl16]
        · exact hdrop x hx
      · rw [List.getLast?_cons_cons]
        exact hlast
      · rw [hclen, hmod]
termination_by vc.length
decreasing_by
  simp only [List.length_drop]
  omega

/-- When the buffer length is congruent to 9..15 modulo 16, the rows cover
all but the trailing `length % 16 - 8` bytes. -/
theorem rowChunks_join_length (vc : List Nat) (cs : List (List Nat))
    (h9 : 9 ≤ vc.length % 16) (h : rowChunks vc = some cs) :
    cs.flatten.length = vc.length - (vc.length % 16 - 8) := by
  by_cases h16 : vc.length < 16
  · have hle : 8 ≤ vc.length := by omega
    rw [rowChunks_single vc hle h16] at h
    cases h
    have hfl : ([vc.take 8] : List (List Nat)).flatten = vc.take 8 := by simp
    have hl : (vc.take 8).length = 8 := by
      simp only [List.length_take]
      omega
    rw [hfl, hl]
    omega
  · have hle : 16 ≤ vc.length := by omega
    rw [rowChunks_step vc hle] at h
    obtain ⟨cs1, hcs1, rfl⟩ := Option.map_eq_some'.mp h
    have h9' : 9 ≤ (vc.drop 16).length % 16 := by
      simp only [List.length_drop]
      omega
    have ih := rowChunks_join_length (vc.drop 16) cs1 h9' hcs1
    have hl16 : (vc.take 16).length = 16 := by
      simp only [List.length_take]
      omega
    have hld : (vc.drop 16).length = vc.length - 16 := by
      simp only [List.length_drop]
    simp only [List.flatten_cons, List.length_append, hl16]
    omega
termination_by vc.length
decreasing_by
  simp only [List.length_drop]
  omega

/-- A successful `rotate_right` is a cyclic rotation: moving the last `n`
elements to the front is `List.rotate` by `length - n`. -/
theorem rotate_right_eq_rotate (l : List String) (n : Nat) (h : n ≤ l.length) :
    rotate_right l n = some (l.rotate (l.length - n)) := by
  have hn : ¬ l.length < n := by omega
  simp only [rotate_right, if_neg hn]
  rw [List.rotate_eq_drop_append_take (by omega : l.length - n ≤ l.length)]

/-- A successful `rotate_left` is `List.rotate` by `n`. -/
theorem rotate_left_eq_rotate (l : List String) (n : Nat) (h : n ≤ l.length) :
    rotate_left l n = some (l.rotate n) := by
  have hn : ¬ l.length < n := by omega
  simp only [rotate_left, if_neg hn]
  rw [List.rotate_eq_drop_append_take h]

/-- Inversion for `rotate_right`: success means the amount was in range, and
the result is the corresponding rotation. -/
theorem rotate_right_some (l : List String) (n : Nat) (r : List String)
    (h : rotate_right l n = some r) :
    n ≤ l.length ∧ r = l.rotate (l.length - n) := by
  by_cases hn : l.length < n
  · simp [rotate_right, if_pos hn] at h
  · have hle : n ≤ l.length := by omega
    rw [rotate_right_eq_rotate l n hle] at h
    exact ⟨hle, (Option.some.inj h).symm⟩

/-- Inversion for `rotate_left`. -/
theorem rotate_left_some (l : List String) (n : Nat) (r : List String)
    (h : rotate_left l n = some r) :
    n ≤ l.length ∧ r = l.rotate n := by
  by_cases hn : l.length < n
  · simp [rotate_left, if_pos hn] at h
  · have hle : n ≤ l.length := by omega
    rw [rotate_left_eq_rotate l n hle] at h
    exact ⟨hle, (Option.some.inj h).symm⟩

/-- `move_up` with an in-range amount rotates both row sequences by the same
cyclic rotation. -/
theorem move_up_rotate (app : App) (number : Option Nat)
    (h1 : number.getD 1 ≤ app.file_as_ascii.length)
    (h2 : number.getD 1 ≤ app.file_as_hex.length) :
    move_up app number = some { app with
      file_as_ascii := app.file_as_ascii.rotate (app.file_as_ascii.length - number.getD 1),
      file_as_hex := app.file_as_hex.rotate (app.file_as_hex.length - number.getD 1) } := by
  simp only [move_up]
  rw [rotate_right_eq_rotate _ _ h1, rotate_right_eq_rotate _ _ h2]

/-- `move_down` with an in-range amount rotates both row sequences by the
same cyclic rotation. -/
theorem move_down_rotate (app : App) (number : Option Nat)
    (h1 : number.getD 1 ≤ app.file_as_ascii.length)
    (h2 : number.getD 1 ≤ app.file_as_hex.length) :
    move_down app number = some { app with
      file_as_ascii := app.file_as_ascii.rotate (number.getD 1),
      file_as_hex := app.file_as_hex.rotate (number.getD 1) } := by
  simp only [move_down]
  rw [rotate_left_eq_rotate _ _ h1, rotate_left_eq_rotate _ _ h2]

/-- Inversion for `move_up`: success means the amount was within both row
sequences, and both were rotated by it in lock-step. -/
theorem move_up_some (app : App) (number : Option Nat) (app2 : App)
    (h : move_up app number = some app2) :
    number.getD 1 ≤ app.file_as_ascii.length ∧
    number.getD 1 ≤ app.file_as_hex.length ∧
    app2 = { app with
      file_as_ascii := app.file_as_ascii.rotate (app.file_as_ascii.length - number.getD 1),
      file_as_hex := app.file_as_hex.rotate (app.file_as_hex.length - number.getD 1) } := by
  simp only [move_up] at h
  cases ha : rotate_right app.file_as_ascii (number.getD 1) with
  | none =>
      rw [ha] at h
      cases h
  | some asc =>
      rw [ha] at h
      cases hb : rotate_right app.file_as_hex (number.getD 1) with
      | none =>
          rw [hb] at h
          cases h
      | some hex =>
          rw [hb] at h
          obtain ⟨ha1, ha2⟩ := rotate_right_some _ _ _ ha
          obtain ⟨hb1, hb2⟩ := rotate_right_some _ _ _ hb
          cases h
          subst ha2
          subst hb2
          exact ⟨ha1, hb1, rfl⟩

/-- Inversion for `move_down`. -/
theorem move_down_some (app : App) (number : Option Nat) (app2 : App)
    (h : move_down app number = some app2) :
    number.getD 1 ≤ app.file_as_ascii.length ∧
    number.getD 1 ≤ app.file_as_hex.length ∧
    app2 = { app with
      file_as_ascii := app.file_as_ascii.rotate (number.getD 1),
      file_as_hex := app.file_as_hex.rotate (number.getD 1) } := by
  simp only [move_down] at h
  cases ha : rotate_left app.file_as_ascii (number.getD 1) with
  | none =>
      rw [ha] at h
      cases h
  | some asc =>
      rw [ha] at h
      cases hb : rotate_left app.file_as_hex (number.getD 1) with
      | none =>
          rw [hb] at h
          cases h
      | some hex =>
          rw [hb] at h
          obtain ⟨ha1, ha2⟩ := rotate_left_some _ _ _ ha
          obtain ⟨hb1, hb2⟩ := rotate_left_some _ _ _ hb
          cases h
          subst ha2
          subst hb2
          exact ⟨ha1, hb1, rfl⟩

/-- One navigation event preserves the lock-step pairing: if both row
sequences are the renderings of one chunk list, they stay the renderings of a
common cyclic rotation of it. -/
theorem applyShift_pairing (op : ShiftOp) (cs : List (List Nat)) (app app2 : App)
    (hh : app.file_as_hex = cs.map renderHexRow)
    (ha : app.file_as_ascii = cs.map renderAsciiRow)
    (h : applyShift app op = some app2) :
    ∃ cs2, List.IsRotated cs cs2 ∧
      app2.file_as_hex = cs2.map renderHexRow ∧
      app2.file_as_ascii = cs2.map renderAsciiRow := by
  cases op with
  | up number =>
      obtain ⟨h1, h2, rfl⟩ := move_up_some app number app2 h
      refine ⟨cs.rotate (cs.length - number.getD 1), ⟨cs.length - number.getD 1, rfl⟩, ?_, ?_⟩
      · simp only [hh, List.length_map, List.map_rotate]
      · simp only [ha, List.length_map, List.map_rotate]
  | down number =>
      obtain ⟨h1, h2, rfl⟩ := move_down_some app number app2 h
      refine ⟨cs.rotate (number.getD 1), ⟨number.getD 1, rfl⟩, ?_, ?_⟩
      · simp only [hh, List.map_rotate]
      · simp only [ha, List.map_rotate]

/-- Any sequence of navigation events preserves the lock-step pairing. -/
theorem applyShifts_pairing (ops : List ShiftOp) (cs : List (List Nat)) (app app2 : App)
    (hh : app.file_as_hex = cs.map renderHexRow)
    (ha : app.file_as_ascii = cs.map renderAsciiRow)
    (h : applyShifts app ops = some app2) :
    ∃ cs2, List.IsRotated cs cs2 ∧
      app2.file_as_hex = cs2.map renderHexRow ∧
      app2.file_as_ascii = cs2.map renderAsciiRow := by
  induction ops generalizing cs app with
  | nil =>
      cases h
      exact ⟨cs, List.IsRotated.refl cs, hh, ha⟩
  | cons op ops ih =>
      simp only [applyShifts] at h
      cases h1 : applyShift app op with
      | none =>
          rw [h1] at h
          cases h
      | some app1 =>
          rw [h1] at h
          obtain ⟨cs1, hrot, hh1, ha1⟩ := applyShift_pairing op cs app app1 hh ha h1
          obtain ⟨cs2, hrot2, hh2, ha2⟩ := ih cs1 app1 hh1 ha1 h
          exact ⟨cs2, hrot.trans hrot2, hh2, ha2⟩

/-- `move_up(None)` (the `KeyCode::Up` handler) with nonempty rows. -/
theorem move_up_one (app : App) (h1 : 1 ≤ app.file_as_ascii.length)
    (h2 : 1 ≤ app.file_as_hex.length) :
    move_up app none = some { app with
      file_as_ascii := app.file_as_ascii.rotate (app.file_as_ascii.length - 1),
      file_as_hex := app.file_as_hex.rotate (app.file_as_hex.length - 1) } :=
  move_up_rotate app none h1 h2

/-- `move_down(None)` (the `KeyCode::Down` handler) with nonempty rows. -/
theorem move_down_one (app : App) (h1 : 1 ≤ app.file_as_ascii.length)
    (h2 : 1 ≤ app.file_as_hex.length) :
    move_down app none = some { app with
      file_as_ascii := app.file_as_ascii.rotate 1,
      file_as_hex := app.file_as_hex.rotate 1 } :=
  move_down_rotate app none h1 h2

/-- Iterating `move_up(None)` `k` times on nonempty rows rotates both
sequences by `(length - 1) * k` and never faults. -/
theorem applyShifts_replicate_up (k : Nat) (app : App)
    (hh : app.file_as_hex ≠ []) (ha : app.file_as_ascii ≠ []) :
    ∃ app2, applyShifts app (List.replicate k (ShiftOp.up none)) = some app2 ∧
      app2.file_as_bytes = app.file_as_bytes ∧
      app2.file_blueprint = app.file_blueprint ∧
      app2.file_as_hex = app.file_as_hex.rotate ((app.file_as_hex.length - 1) * k) ∧
      app2.file_as_ascii = app.file_as_ascii.rotate ((app.file_as_ascii.length - 1) * k) := by
  induction k generalizing app with
  | zero =>
      refine ⟨app, rfl, rfl, rfl, ?_, ?_⟩
      · rw [Nat.mul_zero, List.rotate_zero]
      · rw [Nat.mul_zero, List.rotate_zero]
  | succ k ih =>
      have hL1 : (1 : Nat) ≤ app.file_as_ascii.length := List.length_pos.mpr ha
      have hL2 : (1 : Nat) ≤ app.file_as_hex.length := List.length_pos.mpr hh
      obtain ⟨app2, happ2, hb, hbp, hhex, hasc⟩ := ih { app with
          file_as_ascii := app.file_as_ascii.rotate (app.file_as_ascii.length - 1),
          file_as_hex := app.file_as_hex.rotate (app.file_as_hex.length - 1) }
        (by
          dsimp only
          intro hcon
          apply hh
          have hlen := congrArg List.length hcon
          rw [List.length_rotate] at hlen
          exact List.length_eq_zero.mp hlen)
        (by
          dsimp only
          intro hcon
          apply ha
          have hlen := congrArg List.length hcon
          rw [List.length_rotate] at hlen
          exact List.length_eq_zero.mp hlen)
      refine ⟨app2, ?_, hb, hbp, ?_, ?_⟩
      · rw [List.replicate_succ]
        simp only [applyShifts, applyShift]
        rw [move_up_one app hL1 hL2]
        exact happ2
      · rw [hhex]
        dsimp only
        rw [List.length_rotate, List.rotate_rotate]
        congr 1
        rw [Nat.mul_succ]
        omega
      · rw [hasc]
        dsimp only
        rw [List.length_rotate, List.rotate_rotate]
        congr 1
        rw [Nat.mul_succ]
        omega

/-- Iterating `move_down(None)` `k` times on nonempty rows rotates both
sequences by `k` and never faults. -/
theorem applyShifts_replicate_down (k : Nat) (app : App)
    (hh : app.file_as_hex ≠ []) (ha : app.file_as_ascii ≠ []) :
    ∃ app2, applyShifts app (List.replicate k (ShiftOp.down none)) = some app2 ∧
      app2.file_as_bytes = app.file_as_bytes ∧
      app2.file_blueprint = app.file_blueprint ∧
      app2.file_as_hex = app.file_as_hex.rotate k ∧
      app2.file_as_ascii = app.file_as_ascii.rotate k := by
  induction k generalizing app with
  | zero =>
      refine ⟨app, rfl, rfl, rfl, ?_, ?_⟩
      · rw [List.rotate_zero]
      · rw [List.rotate_zero]
  | succ k ih =>
      have hL1 : (1 : Nat) ≤ app.file_as_ascii.length := List.length_pos.mpr ha
      have hL2 : (1 : Nat) ≤ app.file_as_hex.length := List.length_pos.mpr hh
      obtain ⟨app2, happ2, hb, hbp, hhex, hasc⟩ := ih { app with
          file_as_ascii := app.file_as_ascii.rotate 1,
          file_as_hex := app.file_as_hex.rotate 1 }
        (by
          dsimp only
          intro hcon
          apply hh
          have hlen := congrArg List.length hcon
          rw [List.length_rotate] at hlen
          exact List.length_eq_zero.mp hlen)
        (by
          dsimp only
          intro hcon
          apply ha
          have hlen := congrArg List.length hcon
          rw [List.length_rotate] at hlen
          exact List.length_eq_zero.mp hlen)
      refine ⟨app2, ?_, hb, hbp, ?_, ?_⟩
      · rw [List.replicate_succ]
        simp only [applyShifts, applyShift]
        rw [move_down_one app hL1 hL2]
        exact happ2
      · rw [hhex]
        dsimp only
        rw [List.rotate_rotate]
        congr 1
        omega
      · rw [hasc]
        dsimp only
        rw [List.rotate_rotate]
        congr 1
        omega

/-- Every `n < 16` is rendered by `hexDigit` as an uppercase hexadecimal
digit character whose numeric value is `n`. -/
theorem hexDigit_spec_all :
    ∀ n < 16, isUpperHexDigit (hexDigit n) = true ∧ hexCharVal (hexDigit n) = n := by
  decide

/-- C1. The spec asserts the row formatter (the byte-to-row loop of
`App::open_file`) is a total function that terminates normally on every byte
sequence. The code violates this: whenever the buffer length is congruent to
1..7 modulo 16, the loop reaches a nonempty tail of fewer than 8 bytes and
`vc.drain(..8)` panics (modelled as `none`). -/
theorem c1_formatter_faults_on_short_tail (v : List Nat) (h1 : 0 < v.length % 16)
    (h2 : v.length % 16 < 8) : formatLoop v = none :=
  formatLoop_none_of_mod v h1 h2

/-- Witness for C1 at the one-byte buffer `[0x00]`. -/
theorem c1_formatter_faults_on_short_tail_witness :
    0 < ([0] : List Nat).length % 16 ∧ ([0] : List Nat).length % 16 < 8 ∧
    formatLoop [0] = none :=
  ⟨by decide, by decide, c1_formatter_faults_on_short_tail [0] (by decide) (by decide)⟩

/-- C2. The spec asserts `move_up(1)` and `move_down(1)` on an empty RowStore
are no-ops that do not fault. The code violates this: with both row vectors
empty, `rotate_right(1)` (and `rotate_left(1)`) is called with an amount
larger than the length 0 and panics (modelled as `none`). `move_up App.new
none` is exactly the `KeyCode::Up` handler on the fresh app. -/
theorem c2_shift_on_empty_faults :
    move_up App.new none = none ∧ move_down App.new none = none ∧
    move_up App.new (some 1) = none ∧ move_down App.new (some 1) = none :=
  ⟨rfl, rfl, rfl, rfl⟩

/-- C3 counterexample. With an unreadable path (`readResult = none`) — even
with a blueprint parser that would succeed — `open_file` faults: the
`.unwrap()` in `parse_blueprint` panics, so the failure does propagate,
contrary to the claim. -/
theorem c3_unreadable_fatal_cex :
    open_file App.new none (fun _ => some ()) = none :=
  rfl

/-- C3 amended. When the file cannot be read, the row formatter and row
store are indeed never invoked and no rows are produced, but the failure is
fatal rather than tolerated: `open_file` panics inside `parse_blueprint`
(whose `std::fs::read(..).unwrap()` runs before the tolerant
`if let Ok(v)` read), for every prior app state and any blueprint parser. -/
theorem c3_unreadable_is_fatal (app : App) (blueprintNew : List Nat → Option Unit) :
    parse_blueprint app none blueprintNew = none ∧
    open_file app none blueprintNew = none :=
  ⟨rfl, rfl⟩

/-- Witness for C3 (amended) at the fresh app and an always-succeeding
blueprint parser. -/
theorem c3_unreadable_is_fatal_witness :
    parse_blueprint App.new none (fun _ => some ()) = none ∧
    open_file App.new none (fun _ => some ()) = none :=
  c3_unreadable_is_fatal App.new (fun _ => some ())

/-- C5. The spec asserts a 20-byte buffer (values 0-19) yields exactly two
rows. The code faults instead: the first iteration consumes bytes 0-15, the
second calls `vc.drain(..8)` with only 4 bytes left and panics. -/
theorem c5_twenty_byte_buffer_faults : formatLoop (List.range 20) = none := by
  rw [formatLoop_step (List.range 20) (by decide)]
  have hd : List.drop 16 (List.range 20) = [16, 17, 18, 19] := by decide
  rw [hd, formatLoop_small [16, 17, 18, 19] (by decide) (by decide)]
  rfl

/-- C4. Lock-step pairing invariant: after formatting a buffer and after any
sequence of shift operations that completes, the hex and ascii row sequences
have equal length and are the renderings of one common chunk list `cs2` — a
cyclic rotation of the formatter's chunk list `cs`, whose chunks are the
contiguous initial spans of the buffer — so for every index `i` the hex row
and the ascii row at `i` are derived from the identical contiguous byte
span. -/
theorem c4_pairing_lockstep (v : List Nat) (hs asr : List String)
    (ops : List ShiftOp) (app2 : App)
    (hf : formatLoop v = some (hs, asr))
    (hops : applyShifts
      { file_as_bytes := v, file_blueprint := none,
        file_as_hex := hs, file_as_ascii := asr } ops = some app2) :
    app2.file_as_hex.length = app2.file_as_ascii.length ∧
    ∃ cs cs2, rowChunks v = some cs ∧
      cs.flatten = v.take cs.flatten.length ∧
      List.IsRotated cs cs2 ∧
      app2.file_as_hex = cs2.map renderHexRow ∧
      app2.file_as_ascii = cs2.map renderAsciiRow := by
  rw [formatLoop_eq_rowChunks v] at hf
  obtain ⟨cs, hcs, hpair⟩ := Option.map_eq_some'.mp hf
  cases hpair
  obtain ⟨cs2, hrot, hh2, ha2⟩ := applyShifts_pairing ops cs _ app2 rfl rfl hops
  refine ⟨?_, cs, cs2, hcs, rowChunks_join v cs hcs, hrot, hh2, ha2⟩
  rw [hh2, ha2]
  simp only [List.length_map]

/-- Witness for C4: the 8-byte buffer `0,...,7` followed by one `KeyCode::Up`
shift. -/
theorem c4_pairing_lockstep_witness :
    formatLoop (List.range 8) =
      some ([hexOfBytes ((List.range 8).take 8) ++ "   "],
            [asciiOfBytes ((List.range 8).take 8) ++ " "]) ∧
    applyShifts
      { file_as_bytes := List.range 8, file_blueprint := none,
        file_as_hex := [hexOfBytes ((List.range 8).take 8) ++ "   "],
        file_as_ascii := [asciiOfBytes ((List.range 8).take 8) ++ " "] }
      [ShiftOp.up none] =
      some { file_as_bytes := List.range 8, file_blueprint := none,
             file_as_hex := [hexOfBytes ((List.range 8).take 8) ++ "   "],
             file_as_ascii := [asciiOfBytes ((List.range 8).take 8) ++ " "] } ∧
    (({ file_as_bytes := List.range 8, file_blueprint := none,
        file_as_hex := [hexOfBytes ((List.range 8).take 8) ++ "   "],
        file_as_ascii := [asciiOfBytes ((List.range 8).take 8) ++ " "] } : App).file_as_hex.length =
      ({ file_as_bytes := List.range 8, file_blueprint := none,
         file_as_hex := [hexOfBytes ((List.range 8).take 8) ++ "   "],
         file_as_ascii := [asciiOfBytes ((List.range 8).take 8) ++ " "] } : App).file_as_ascii.length ∧
     ∃ cs cs2, rowChunks (List.range 8) = some cs ∧
       cs.flatten = (List.range 8).take cs.flatten.length ∧
       List.IsRotated cs cs2 ∧
       ({ file_as_bytes := List.range 8, file_blueprint := none,
          file_as_hex := [hexOfBytes ((List.range 8).take 8) ++ "   "],
          file_as_ascii := [asciiOfBytes ((List.range 8).take 8) ++ " "] } : App).file_as_hex =
         cs2.map renderHexRow ∧
       ({ file_as_bytes := List.range 8, file_blueprint := none,
          file_as_hex := [hexOfBytes ((List.range 8).take 8) ++ "   "],
          file_as_ascii := [asciiOfBytes ((List.range 8).take 8) ++ " "] } : App).file_as_ascii =
         cs2.map renderAsciiRow) := by
  have hf : formatLoop (List.range 8) =
      some ([hexOfBytes ((List.range 8).take 8) ++ "   "],
            [asciiOfBytes ((List.range 8).take 8) ++ " "]) :=
    formatLoop_single (List.range 8) (by decide) (by decide)
  exact ⟨hf, rfl, c4_pairing_lockstep (List.range 8) _ _ [ShiftOp.up none] _ hf rfl⟩

/-- C6 counterexample. For the 16-byte buffer `0,...,15` formatting succeeds
with exactly one row whose byte span is the whole 16-byte buffer: the last
(and only) produced row represents 16 bytes, not "between 1 and 8 bytes". -/
theorem c6_sixteen_byte_last_row_cex :
    rowChunks (List.range 16) = some [List.range 16] ∧
    formatLoop (List.range 16) =
      some ([renderHexRow (List.range 16)], [renderAsciiRow (List.range 16)]) ∧
    ¬ (List.range 16).length ≤ 8 := by
  have h1 : rowChunks (List.range 16) = some [List.range 16] := by
    rw [rowChunks_step (List.range 16) (by decide)]
    have hd : List.drop 16 (List.range 16) = [] := by decide
    rw [hd, rowChunks_nil]
    decide
  refine ⟨h1, ?_, by decide⟩
  rw [formatLoop_eq_rowChunks, h1]
  rfl

/-- C6 amended. For every nonempty buffer on which the formatter succeeds,
every produced row except the last spans exactly 16 bytes, and the last row
spans exactly 16 bytes when the buffer length is a multiple of 16 (two full
groups) and exactly 8 bytes otherwise (a single full group) — never a
partial second group, and never fewer than 8 bytes. -/
theorem c6_row_shape (v : List Nat) (cs : List (List Nat)) (hv : v ≠ [])
    (hc : rowChunks v = some cs) :
    formatLoop v = some (cs.map renderHexRow, cs.map renderAsciiRow) ∧
    cs ≠ [] ∧ (∀ c ∈ cs.dropLast, c.length = 16) ∧
    ∃ c, cs.getLast? = some c ∧
      c.length = (if v.length % 16 = 0 then 16 else 8) := by
  have h := rowChunks_shape v cs hv hc
  refine ⟨?_, h.1, h.2.1, h.2.2⟩
  rw [formatLoop_eq_rowChunks, hc]
  rfl

/-- Witness for C6 at the 24-byte buffer `0,...,23`: one full 16-byte row,
then a final 8-byte row. -/
theorem c6_row_shape_witness :
    (List.range 24 ≠ []) ∧
    rowChunks (List.range 24) =
      some [(List.range 24).take 16, ((List.range 24).drop 16).take 8] ∧
    (formatLoop (List.range 24) =
      some ([(List.range 24).take 16, ((List.range 24).drop 16).take 8].map renderHexRow,
            [(List.range 24).take 16, ((List.range 24).drop 16).take 8].map renderAsciiRow) ∧
     ([(List.range 24).take 16, ((List.range 24).drop 16).take 8] : List (List Nat)) ≠ [] ∧
     (∀ c ∈ ([(List.range 24).take 16, ((List.range 24).drop 16).take 8] : List (List Nat)).dropLast,
        c.length = 16) ∧
     ∃ c, ([(List.range 24).take 16, ((List.range 24).drop 16).take 8] : List (List Nat)).getLast? = some c ∧
       c.length = (if (List.range 24).length % 16 = 0 then 16 else 8)) := by
  have hc : rowChunks (List.range 24) =
      some [(List.range 24).take 16, ((List.range 24).drop 16).take 8] := by
    rw [rowChunks_step (List.range 24) (by decide)]
    rw [rowChunks_single ((List.range 24).drop 16) (by decide) (by decide)]
    rfl
  exact ⟨by decide, hc, c6_row_shape (List.range 24) _ (by decide) hc⟩

/-- C7. Round-trip: on a populated RowStore of length `L`, `move_up(n)`
followed by `move_down(n)` (for `0 < n < L`) restores both row sequences —
indeed the whole app state — exactly. -/
theorem c7_shift_roundtrip (app : App) (L n : Nat)
    (h1 : app.file_as_hex.length = L) (h2 : app.file_as_ascii.length = L)
    (hn : 0 < n) (hnL : n < L) :
    ∃ app1, move_up app (some n) = some app1 ∧ move_down app1 (some n) = some app := by
  have ha : n ≤ app.file_as_ascii.length := by omega
  have hh : n ≤ app.file_as_hex.length := by omega
  refine ⟨{ app with
      file_as_ascii := app.file_as_ascii.rotate (app.file_as_ascii.length - n),
      file_as_hex := app.file_as_hex.rotate (app.file_as_hex.length - n) },
    move_up_rotate app (some n) ha hh, ?_⟩
  have hla : n ≤ ({ app with
      file_as_ascii := app.file_as_ascii.rotate (app.file_as_ascii.length - n),
      file_as_hex := app.file_as_hex.rotate (app.file_as_hex.length - n) } : App).file_as_ascii.length := by
    dsimp only
    rw [List.length_rotate]
    omega
  have hlh : n ≤ ({ app with
      file_as_ascii := app.file_as_ascii.rotate (app.file_as_ascii.length - n),
      file_as_hex := app.file_as_hex.rotate (app.file_as_hex.length - n) } : App).file_as_hex.length := by
    dsimp only
    rw [List.length_rotate]
    omega
  rw [move_down_rotate { app with
      file_as_ascii := app.file_as_ascii.rotate (app.file_as_ascii.length - n),
      file_as_hex := app.file_as_hex.rotate (app.file_as_hex.length - n) } (some n) hla hlh]
  have ea : (app.file_as_ascii.rotate (app.file_as_ascii.length - n)).rotate n =
      app.file_as_ascii := by
    rw [List.rotate_rotate]
    have hsum : app.file_as_ascii.length - n + n = app.file_as_ascii.length := by omega
    rw [hsum, List.rotate_length]
  have eh : (app.file_as_hex.rotate (app.file_as_hex.length - n)).rotate n =
      app.file_as_hex := by
    rw [List.rotate_rotate]
    have hsum : app.file_as_hex.length - n + n = app.file_as_hex.length := by omega
    rw [hsum, List.rotate_length]
  show some { app with
      file_as_ascii := (app.file_as_ascii.rotate (app.file_as_ascii.length - n)).rotate n,
      file_as_hex := (app.file_as_hex.rotate (app.file_as_hex.length - n)).rotate n } = some app
  rw [ea, eh]

/-- Witness for C7: a two-row store, `n = 1`. -/
theorem c7_shift_roundtrip_witness :
    (App.mk [] none ["h0", "h1"] ["a0", "a1"]).file_as_hex.length = 2 ∧
    (App.mk [] none ["h0", "h1"] ["a0", "a1"]).file_as_ascii.length = 2 ∧
    0 < 1 ∧ 1 < 2 ∧
    ∃ app1, move_up (App.mk [] none ["h0", "h1"] ["a0", "a1"]) (some 1) = some app1 ∧
      move_down app1 (some 1) = some (App.mk [] none ["h0", "h1"] ["a0", "a1"]) :=
  ⟨rfl, rfl, by decide, by decide,
    c7_shift_roundtrip (App.mk [] none ["h0", "h1"] ["a0", "a1"]) 2 1 rfl rfl
      (by decide) (by decide)⟩

/-- C8. Rotation is circular: on a populated RowStore of length `L`, a single
`move_up(L)` (or `move_down(L)`) restores the original order, and `L`
repeated shifts of one (either the `KeyCode::Up` or the `KeyCode::Down`
handler) return both sequences to the starting arrangement. -/
theorem c8_rotation_circular (app : App) (L : Nat)
    (h1 : app.file_as_hex.length = L) (h2 : app.file_as_ascii.length = L)
    (hL : 1 ≤ L) :
    move_up app (some L) = some app ∧ move_down app (some L) = some app ∧
    applyShifts app (List.replicate L (ShiftOp.up none)) = some app ∧
    applyShifts app (List.replicate L (ShiftOp.down none)) = some app := by
  have hha : L ≤ app.file_as_ascii.length := by omega
  have hhh : L ≤ app.file_as_hex.length := by omega
  have hne_h : app.file_as_hex ≠ [] := by
    intro hcon
    rw [hcon] at h1
    simp only [List.length_nil] at h1
    omega
  have hne_a : app.file_as_ascii ≠ [] := by
    intro hcon
    rw [hcon] at h2
    simp only [List.length_nil] at h2
    omega
  have eda : app.file_as_ascii.rotate L = app.file_as_ascii := by
    rw [← h2, List.rotate_length]
  have edh : app.file_as_hex.rotate L = app.file_as_hex := by
    rw [← h1, List.rotate_length]
  refine ⟨?_, ?_, ?_, ?_⟩
  · rw [move_up_rotate app (some L) hha hhh]
    show some { app with
        file_as_ascii := app.file_as_ascii.rotate (app.file_as_ascii.length - L),
        file_as_hex := app.file_as_hex.rotate (app.file_as_hex.length - L) } = some app
    have e1 : app.file_as_ascii.length - L = 0 := by omega
    have e2 : app.file_as_hex.length - L = 0 := by omega
    rw [e1, e2, List.rotate_zero, List.rotate_zero]
  · rw [move_down_rotate app (some L) hha hhh]
    show some { app with
        file_as_ascii := app.file_as_ascii.rotate L,
        file_as_hex := app.file_as_hex.rotate L } = some app
    rw [eda, edh]
  · obtain ⟨app2, happ2, hb, hbp, hhex, hasc⟩ := applyShifts_replicate_up L app hne_h hne_a
    rw [happ2]
    have ehex : app.file_as_hex.rotate ((app.file_as_hex.length - 1) * L) =
        app.file_as_hex := by
      rw [← List.rotate_mod]
      have hm : (app.file_as_hex.length - 1) * L % app.file_as_hex.length = 0 := by
        rw [h1]
        exact Nat.mul_mod_left (L - 1) L
      rw [hm, List.rotate_zero]
    have easc : app.file_as_ascii.rotate ((app.file_as_ascii.length - 1) * L) =
        app.file_as_ascii := by
      rw [← List.rotate_mod]
      have hm : (app.file_as_ascii.length - 1) * L % app.file_as_ascii.length = 0 := by
        rw [h2]
        exact Nat.mul_mod_left (L - 1) L
      rw [hm, List.rotate_zero]
    have heq : app2 = app := App.ext hb hbp (hhex.trans ehex) (hasc.trans easc)
    rw [heq]
  · obtain ⟨app2, happ2, hb, hbp, hhex, hasc⟩ := applyShifts_replicate_down L app hne_h hne_a
    rw [happ2]
    have heq : app2 = app := App.ext hb hbp (hhex.trans edh) (hasc.trans eda)
    rw [heq]

/-- Witness for C8: a two-row store, `L = 2`. -/
theorem c8_rotation_circular_witness :
    (App.mk [] none ["h0", "h1"] ["a0", "a1"]).file_as_hex.length = 2 ∧
    (App.mk [] none ["h0", "h1"] ["a0", "a1"]).file_as_ascii.length = 2 ∧
    1 ≤ 2 ∧
    (move_up (App.mk [] none ["h0", "h1"] ["a0", "a1"]) (some 2) =
        some (App.mk [] none ["h0", "h1"] ["a0", "a1"]) ∧
      move_down (App.mk [] none ["h0", "h1"] ["a0", "a1"]) (some 2) =
        some (App.mk [] none ["h0", "h1"] ["a0", "a1"]) ∧
      applyShifts (App.mk [] none ["h0", "h1"] ["a0", "a1"])
          (List.replicate 2 (ShiftOp.up none)) =
        some (App.mk [] none ["h0", "h1"] ["a0", "a1"]) ∧
      applyShifts (App.mk [] none ["h0", "h1"] ["a0", "a1"])
          (List.replicate 2 (ShiftOp.down none)) =
        some (App.mk [] none ["h0", "h1"] ["a0", "a1"])) :=
  ⟨rfl, rfl, by decide,
    c8_rotation_circular (App.mk [] none ["h0", "h1"] ["a0", "a1"]) 2 rfl rfl (by decide)⟩

/-- C9. Per-byte rendering: every byte is rendered into hex text as two
uppercase hexadecimal digits (whose value decodes back to the byte) followed
by a space, and into ascii text as the byte's character when in the printable
range `0x20..0x7E` and as `'.'` otherwise; in particular `0x41` renders as
`"41 "` / `'A'` and `0x00` as `"00 "` / `'.'`. -/
theorem c9_per_byte_rendering (bt : Nat) (hb : bt < 256) :
    (∃ c1 c2, hexByte bt = String.mk [c1, c2, ' '] ∧
      isUpperHexDigit c1 = true ∧ isUpperHexDigit c2 = true ∧
      16 * hexCharVal c1 + hexCharVal c2 = bt) ∧
    (0x20 ≤ bt ∧ bt ≤ 0x7E → asciiByte bt = Char.ofNat bt) ∧
    (bt < 0x20 ∨ 0x7E < bt → asciiByte bt = '.') ∧
    hexByte 0x41 = "41 " ∧ asciiByte 0x41 = 'A' ∧
    hexByte 0x00 = "00 " ∧ asciiByte 0x00 = '.' := by
  refine ⟨⟨hexDigit (bt / 16 % 16), hexDigit (bt % 16), rfl, ?_, ?_, ?_⟩,
    ?_, ?_, by decide, by decide, by decide, by decide⟩
  · exact (hexDigit_spec_all (bt / 16 % 16) (by omega)).1
  · exact (hexDigit_spec_all (bt % 16) (by omega)).1
  · rw [(hexDigit_spec_all (bt / 16 % 16) (by omega)).2,
      (hexDigit_spec_all (bt % 16) (by omega)).2]
    omega
  · intro h
    simp only [asciiByte, if_pos h]
  · intro h
    have hnot : ¬ (0x20 ≤ bt ∧ bt ≤ 0x7E) := by omega
    simp only [asciiByte, if_neg hnot]

/-- Witness for C9 at the byte `0x41`. -/
theorem c9_per_byte_rendering_witness :
    (0x41 : Nat) < 256 ∧
    ((∃ c1 c2, hexByte 0x41 = String.mk [c1, c2, ' '] ∧
        isUpperHexDigit c1 = true ∧ isUpperHexDigit c2 = true ∧
        16 * hexCharVal c1 + hexCharVal c2 = 0x41) ∧
      (0x20 ≤ (0x41 : Nat) ∧ (0x41 : Nat) ≤ 0x7E → asciiByte 0x41 = Char.ofNat 0x41) ∧
      ((0x41 : Nat) < 0x20 ∨ (0x7E : Nat) < 0x41 → asciiByte 0x41 = '.') ∧
      hexByte 0x41 = "41 " ∧ asciiByte 0x41 = 'A' ∧
      hexByte 0x00 = "00 " ∧ asciiByte 0x00 = '.') :=
  ⟨by decide, c9_per_byte_rendering 0x41 (by decide)⟩

/-- C10. Implicit trailing-byte discard: for every buffer whose length is
congruent to 9..15 modulo 16, the loop stops after emitting a final 8-byte
row; the rows' spans cover exactly the first `length - (length % 16 - 8)`
bytes of the buffer, so the remaining `length % 16 - 8` trailing bytes
appear in no row of either sequence and the rows do not cover the whole
buffer. -/
theorem c10_trailing_bytes_discarded (v : List Nat) (h9 : 9 ≤ v.length % 16) :
    ∃ cs, rowChunks v = some cs ∧
      formatLoop v = some (cs.map renderHexRow, cs.map renderAsciiRow) ∧
      (∃ c, cs.getLast? = some c ∧ c.length = 8) ∧
      cs.flatten = v.take (v.length - (v.length % 16 - 8)) ∧
      v.length - (v.length % 16 - 8) < v.length := by
  obtain ⟨cs, hcs⟩ := rowChunks_some_of_mod v (Or.inr (by omega))
  have hlen := rowChunks_join_length v cs h9 hcs
  have hjoin := rowChunks_join v cs hcs
  have hv : v ≠ [] := by
    intro hh
    subst hh
    simp at h9
  obtain ⟨hne, hdl, c, hlast, hclen⟩ := rowChunks_shape v cs hv hcs
  refine ⟨cs, hcs, ?_, ⟨c, hlast, ?_⟩, ?_, by omega⟩
  · rw [formatLoop_eq_rowChunks, hcs]
    rfl
  · rw [hclen, if_neg (by omega)]
  · rw [hjoin, hlen]

/-- Witness for C10 at the 9-byte buffer `0,...,8` (its last byte, `8`, is
dropped). -/
theorem c10_trailing_bytes_discarded_witness :
    9 ≤ (List.range 9).length % 16 ∧
    ∃ cs, rowChunks (List.range 9) = some cs ∧
      formatLoop (List.range 9) = some (cs.map renderHexRow, cs.map renderAsciiRow) ∧
      (∃ c, cs.getLast? = some c ∧ c.length = 8) ∧
      cs.flatten = (List.range 9).take ((List.range 9).length - ((List.range 9).length % 16 - 8)) ∧
      (List.range 9).length - ((List.range 9).length % 16 - 8) < (List.range 9).length :=
  ⟨by decide, c10_trailing_bytes_discarded (List.range 9) (by decide)⟩

end TBM
